import Mathlib

/-!
Verification of the raon-monorepo coffee suggestion route and the
contentlayer MDX pipeline configuration.

Part 1 embeds `formSchema`, `CoffeeInfoDTO` and the server `action` from
apps/coffee/app/routes/coffee.suggestion.tsx.  JSON values that may be
absent (JavaScript `undefined`) are modelled as `Option String`.
-/

/-- A submitted form input / request body: one `Option String` per field of
`formSchema`; `none` models an absent (undefined) field. -/
structure FormInput where
  name_kr : Option String
  name_en : Option String
  note : Option String
  region : Option String
  farm : Option String
  variety : Option String
  process : Option String
  source : Option String
deriving DecidableEq, Repr

/-- Embeds zod `z.string()`: accepts any present string, rejects undefined. -/
def zString (v : Option String) : Bool :=
  v.isSome

/-- Embeds zod `z.string().min(1, ...)`: present and of length at least 1. -/
def zStringMin1 (v : Option String) : Bool :=
  match v with
  | some s => decide (1 ≤ s.length)
  | none => false

/-- Embeds zod `z.string().optional()`: accepts anything, undefined included. -/
def zStringOptional (_ : Option String) : Bool :=
  true

/-- Embeds the JavaScript expression `s.split(",").length`: for the
single-character separator, JS split agrees with `List.splitOn` on the
character list (for instance both give 1 on the empty string and 2 on a
lone comma). -/
def jsSplitCommaCount (s : String) : Nat :=
  (s.data.splitOn ',').length

/-- Embeds the `note` field of `formSchema`:
`z.string().min(1, ...).refine((note) => note.split(",").length > 1, ...)`. -/
def noteCheck (v : Option String) : Bool :=
  match v with
  | some s => decide (1 ≤ s.length) && decide (1 < jsSplitCommaCount s)
  | none => false

/-- Embeds `formSchema.safeParse` success: every field check of the zod
object passes. -/
def formSchemaPasses (i : FormInput) : Bool :=
  zStringMin1 i.name_kr && zString i.name_en && noteCheck i.note &&
  zStringOptional i.region && zStringOptional i.farm &&
  zStringOptional i.variety && zStringOptional i.process &&
  zStringOptional i.source

/-- Embeds `CoffeeInfoDTO.parse` success: all eight fields are required
`z.string()` fields. -/
def CoffeeInfoDTOPasses (i : FormInput) : Bool :=
  zString i.name_kr && zString i.name_en && zString i.note &&
  zString i.region && zString i.farm && zString i.variety &&
  zString i.process && zString i.source

/-- The shape of the resolved Notion response as the action reads it:
whether `"properties" in response` holds, and the value of
`response.properties[CoffeeInfoField.ID]?.unique_id.number` (`none` when
the ID property is absent, so that the optional chain yields undefined). -/
structure DbResponse where
  hasProperties : Bool
  idNumber : Option Int
deriving DecidableEq, Repr

/-- Outcome of `await createCoffeeInfo(...)`: the promise resolves with a
possibly null/undefined response, or rejects with an error. -/
inductive DbOutcome where
  | ok (response : Option DbResponse)
  | failure (e : String)
deriving DecidableEq, Repr

/-- Result of the server action: `parseError` models the uncaught throw of
`CoffeeInfoDTO.parse`, `dbFailure` the unhandled rejection of
`createCoffeeInfo` (carried unchanged), `redirect` the returned redirect. -/
inductive ActionResult where
  | parseError
  | dbFailure (e : String)
  | redirect (path : String)
deriving DecidableEq, Repr

/-- Embeds `let number = 0; if (response && "properties" in response)
number = response.properties[ID]?.unique_id.number;`.  The result is a JS
number-or-undefined, hence `Option Int`. -/
def extractNumber (response : Option DbResponse) : Option Int :=
  match response with
  | some r => if r.hasProperties then r.idNumber else some 0
  | none => some 0

/-- Embeds the JS expression `number || 0` (undefined and 0 are falsy). -/
def jsOrZero (n : Option Int) : Int :=
  match n with
  | some k => if k = 0 then 0 else k
  | none => 0

/-- The server `action`, instrumented with a Boolean recording whether
`createCoffeeInfo` was invoked.  The body is first parsed with
`CoffeeInfoDTO`; on failure the throw propagates and the database client
is never called.  Otherwise the create call runs: a rejection propagates
unchanged, and a resolution yields `redirect("/coffee/" + (number || 0))`. -/
def action (body : FormInput) (db : DbOutcome) : ActionResult × Bool :=
  if CoffeeInfoDTOPasses body then
    match db with
    | .failure e => (.dbFailure e, true)
    | .ok response =>
        (.redirect ("/coffee/" ++ toString (jsOrZero (extractNumber response))), true)
  else
    (.parseError, false)

/-! Concrete inputs used by witnesses and counterexamples. -/

/-- A fully populated valid request body. -/
def fullBody : FormInput :=
  { name_kr := some "에티오피아 예가체프"
    name_en := some "Ethiopia Yirgacheffe"
    note := some "Bright, Floral, Sweet"
    region := some "Ethiopia"
    farm := some "Kochere"
    variety := some "Heirloom"
    process := some "Washed"
    source := some "https://example.com" }

/-- A form input with non-empty Korean name and a comma-separated note but
with every other field absent. -/
def optionalAbsentInput : FormInput :=
  { name_kr := some "가"
    name_en := none
    note := some "a,b"
    region := none
    farm := none
    variety := none
    process := none
    source := none }

/-- A form input that passes the client form schema while leaving the five
optional fields absent. -/
def clientOnlyInput : FormInput :=
  { name_kr := some "가"
    name_en := some ""
    note := some "a,b"
    region := none
    farm := none
    variety := none
    process := none
    source := none }

/-!
Part 2 embeds the contentlayer document type resolution of
contentlayer.config.ts: `Doc` has filePathPattern `docs/components/**/*.mdx`
and `Project` has `docs/projects/**/*.mdx`; `documentTypes: [Doc, Project]`.
A relative file path is modelled as its list of slash-separated segments.
-/

/-- The two document types declared in contentlayer.config.ts. -/
inductive DocumentTypeName where
  | doc
  | project
deriving DecidableEq, Repr

/-- Matches the glob tail of the two patterns after a two-segment literal
directory: a globstar followed by a segment matching, so the path tail must
consist of zero or more directories and end in a file segment whose name
ends in ".mdx" (glob star matches any run of characters within a segment). -/
def matchesGlobTail (rest : List String) : Bool :=
  match rest.getLast? with
  | some f => List.isSuffixOf ".mdx".data f.data
  | none => false

/-- Embeds the `Doc` pattern the literal segments docs and components, a globstar, and a starred mdx file segment. -/
def matchesDocPattern (segs : List String) : Bool :=
  match segs with
  | a :: b :: rest => a == "docs" && b == "components" && matchesGlobTail rest
  | _ => false

/-- Embeds the `Project` pattern the literal segments docs and projects, a globstar, and a starred mdx file segment. -/
def matchesProjectPattern (segs : List String) : Bool :=
  match segs with
  | a :: b :: rest => a == "docs" && b == "projects" && matchesGlobTail rest
  | _ => false

/-- Embeds contentlayer type resolution over `documentTypes: [Doc, Project]`:
the file path is matched against each declared pattern. -/
def docTypeOf (segs : List String) : Option DocumentTypeName :=
  if matchesDocPattern segs then some .doc
  else if matchesProjectPattern segs then some .project
  else none

/-!
Part 3 embeds the two custom rehype tree-transform passes of
contentlayer.config.ts: the pass that runs before rehype-pretty-code and
annotates pre elements, and the pass that runs after it and copies the
annotations onto the final pre element of each
data-rehype-pretty-code-fragment div.  Only the properties the two
visitors read or write are modelled; setting a property to undefined is
conflated with leaving it unset.
-/

/-- The hast element properties the two visitors touch: the presence of
the key data-rehype-pretty-code-fragment, and the values stored under
the double-underscore keys for src, style, withMeta, rawString, event. -/
structure Props where
  fragment : Bool := false
  src : Option String := none
  style : Option String := none
  withMeta : Option Bool := none
  rawString : Option String := none
  event : Option String := none
deriving DecidableEq, Repr

/-- The expando annotations the first visitor writes directly on a node:
rawString, event, src, style under double-underscore names. -/
structure Ann where
  rawString : Option String := none
  event : Option String := none
  src : Option String := none
  style : Option String := none
deriving DecidableEq, Repr

/-- A hast node: unist type, element tag name, properties, the code meta
string stored at node.data.meta, the text value of a text node, the
expando annotations, and the children. -/
inductive Node where
  | mk (kind : String) (tag : String) (props : Props) (meta : Option String)
      (value : Option String) (ann : Ann) (children : List Node)

def Node.kindOf : Node → String
  | .mk k _ _ _ _ _ _ => k

def Node.tagOf : Node → String
  | .mk _ t _ _ _ _ _ => t

def Node.propsOf : Node → Props
  | .mk _ _ p _ _ _ _ => p

def Node.metaOf : Node → Option String
  | .mk _ _ _ m _ _ _ => m

def Node.valueOf : Node → Option String
  | .mk _ _ _ _ v _ _ => v

def Node.annOf : Node → Ann
  | .mk _ _ _ _ _ a _ => a

def Node.childrenOf : Node → List Node
  | .mk _ _ _ _ _ _ cs => cs

/-- Replaces the properties of a node, as the in-place JS assignment to
preElement.properties does. -/
def Node.setProps : Node → Props → Node
  | .mk k t _ m v a cs, p => .mk k t p m v a cs

/-- Embeds JavaScript string truthiness for a possibly-undefined string:
undefined and the empty string are falsy. -/
def jsTruthyStr (v : Option String) : Bool :=
  match v with
  | some s => !(s == "")
  | none => false

/-- Splits a character list at the first occurrence of a pattern: returns
the part before the occurrence and the part after it. -/
def firstSplitSub (pat : List Char) : List Char → Option (List Char × List Char)
  | [] => if pat = [] then some ([], []) else none
  | c :: rest =>
    if pat.isPrefixOf (c :: rest) then some ([], (c :: rest).drop pat.length)
    else (firstSplitSub pat rest).map (fun q => (c :: q.1, q.2))

/-- Embeds matching the regex for an event attribute, written in the source
as a literal slash-delimited pattern: the text event followed by a quoted
capture group of non-quote characters.  On a match it returns the captured
group and the meta string with the whole match removed (the source replaces
it by the empty string).  The first regex match starts at the first
occurrence of the literal head followed by a closing quote; the greedy
non-quote group runs exactly to the next quote.  When the first occurrence
of the literal head has no later quote, no quote occurs later at all, so
no later occurrence of the head (which itself contains a quote) exists and
the regex cannot match anywhere. -/
def jsMatchEvent (meta : String) : Option (String × String) :=
  match firstSplitSub "event=\"".data meta.data with
  | none => none
  | some (before, rest) =>
    match firstSplitSub ['"'] rest with
    | none => none
    | some (grp, after) => some (⟨grp⟩, ⟨before ++ after⟩)

/-- Embeds the body of the visitor that runs before rehype-pretty-code.
On an element with tag pre whose first child is a code element it extracts
any event attribute from the code meta (removing it from the meta, which
the source reads only when truthy), and records the raw string of the code
(the value of the first child of the code element), the src property and
the style property as annotations on the pre node.  When the pre has no
children the source throws on reading tagName of undefined; this is
modelled as leaving the node unchanged.  Reading the value of an absent
first child of the code element, where the source would also throw, is
modelled as undefined. -/
def preVisit : Node → Node
  | .mk k t p m v a cs =>
    if k == "element" && t == "pre" then
      match cs with
      | [] => .mk k t p m v a cs
      | c0 :: rest =>
        match c0 with
        | .mk k0 t0 p0 m0 v0 a0 cs0 =>
          if t0 == "code" then
            let em := if jsTruthyStr m0 then jsMatchEvent (m0.getD "") else none
            let a1 : Ann :=
              { rawString := (cs0.head?).bind Node.valueOf
                event := match em with
                  | some q => some q.1
                  | none => a.event
                src := p.src
                style := p.style }
            let m0n := match em with
              | some q => some q.2
              | none => m0
            .mk k t p m v a1 (.mk k0 t0 p0 m0n v0 a0 cs0 :: rest)
          else .mk k t p m v a cs
    else .mk k t p m v a cs

/-- Embeds the property update the visitor after rehype-pretty-code applies
to the final pre element of a fragment div: withMeta records whether the
first child of the div is itself a div, rawString is copied
unconditionally, and src, event, style are copied only when truthy. -/
def setPost (old : Props) (wMeta : Bool) (a : Ann) : Props :=
  { old with
    withMeta := some wMeta
    rawString := a.rawString
    src := if jsTruthyStr a.src then a.src else old.src
    event := if jsTruthyStr a.event then a.event else old.event
    style := if jsTruthyStr a.style then a.style else old.style }

/-- Embeds the body of the visitor that runs after rehype-pretty-code.  On
an element with tag div whose properties contain the key
data-rehype-pretty-code-fragment, when the last child is a pre element it
rewrites the properties of that pre with `setPost`.  When the div has no
children the source throws on reading tagName of undefined; this is
modelled as leaving the node unchanged. -/
def postVisit : Node → Node
  | .mk k t p m v a cs =>
    if k == "element" && t == "div" && p.fragment then
      match cs.getLast? with
      | none => .mk k t p m v a cs
      | some l =>
        if l.tagOf == "pre" then
          let wMeta := ((cs.head?).map Node.tagOf).getD "" == "div"
          .mk k t p m v a (cs.dropLast ++ [l.setProps (setPost l.propsOf wMeta a)])
        else .mk k t p m v a cs
    else .mk k t p m v a cs

mutual

/-- The pass before rehype-pretty-code, applied to the whole tree.
unist-util-visit traverses preorder mutating nodes in place; the visitor
reads only fields (tag, kind, meta, value of the immediate code child and
its first child, own properties) that the rest of the pass never changes,
so applying the visitor on the way back up yields the same tree. -/
def prePass : Node → Node
  | .mk k t p m v a cs => preVisit (.mk k t p m v a (prePassList cs))

/-- prePass mapped over a list of children. -/
def prePassList : List Node → List Node
  | [] => []
  | c :: cs => prePass c :: prePassList cs

end

mutual

/-- The pass after rehype-pretty-code, applied to the whole tree, with the
same traversal modelling as prePass. -/
def postPass : Node → Node
  | .mk k t p m v a cs => postVisit (.mk k t p m v a (postPassList cs))

/-- postPass mapped over a list of children. -/
def postPassList : List Node → List Node
  | [] => []
  | c :: cs => postPass c :: postPassList cs

end

/-- Concrete code element with an event attribute in its meta. -/
def wCode : Node :=
  .mk "element" "code" {} (some "ts event=\"copy\"") none {}
    [.mk "text" "" {} none (some "let y = 2") {} []]

/-- Concrete properties of a pre node carrying src and style. -/
def wProps : Props :=
  { src := some "s1", style := some "st" }

/-- Concrete annotations recorded on a fragment div. -/
def wAnn : Ann :=
  { rawString := some "let y = 2", event := some "copy" }

/-- Concrete first child of a fragment div (a div, so withMeta is true). -/
def wInner : Node :=
  .mk "element" "div" {} none none {} []

/-- Concrete final pre element of a fragment div. -/
def wPreEl : Node :=
  .mk "element" "pre" { src := some "oldSrc" } none none {} []

/-- Concrete pre node whose code meta carries an empty event attribute. -/
def eventEmptyCodePre : Node :=
  .mk "element" "pre" {} none none {}
    [.mk "element" "code" {} (some "ts event=\"\"") none {}
      [.mk "text" "" {} none (some "const x = 1") {} []]]

/-- Concrete fragment div on which an empty event annotation was recorded. -/
def eventEmptyFragmentDiv : Node :=
  .mk "element" "div" { fragment := true } none none
    { rawString := some "const x = 1", event := some "" }
    [.mk "element" "pre" {} none none {} []]

/-! Helper lemmas about comma splitting. -/

theorem splitOn_comma_length_of_not_mem (l : List Char) (h : ',' ∉ l) :
    (l.splitOn ',').length = 1 := by
  have hs : l.splitOnP (· == ',') = [l] := by
    apply List.splitOnP_eq_single
    intro x hx
    simp only [beq_iff_eq]
    intro he
    exact h (he ▸ hx)
  simp [List.splitOn, hs]

theorem one_lt_splitOn_comma_length_of_mem (l : List Char) (h : ',' ∈ l) :
    1 < (l.splitOn ',').length := by
  induction l with
  | nil => simp at h
  | cons a t ih =>
    simp only [List.splitOn] at *
    rw [List.splitOnP_cons]
    by_cases ha : a = ','
    · rw [if_pos (by simp [ha])]
      have h1 : t.splitOnP (· == ',') ≠ [] := List.splitOnP_ne_nil _ _
      have h2 : 0 < (t.splitOnP (· == ',')).length := List.length_pos.mpr h1
      simp only [List.length_cons]
      omega
    · rw [if_neg (by simp [ha])]
      rw [List.length_modifyHead]
      have ht : ',' ∈ t := by
        rcases List.mem_cons.mp h with h1 | h1
        · exact absurd h1.symm ha
        · exact h1
      exact ih ht

theorem string_length_eq_data_length (s : String) : s.length = s.data.length := by
  cases s
  rfl

theorem string_eq_empty_of_data_nil (s : String) (h : s.data = []) : s = "" := by
  cases s with
  | mk d =>
    simp only at h
    rw [h]

/-! Preservation lemmas for the two passes. -/

theorem preVisit_tagOf (n : Node) : (preVisit n).tagOf = n.tagOf := by
  cases n with
  | mk k t p m v a cs =>
    cases cs with
    | nil =>
      simp only [preVisit]
      split <;> rfl
    | cons c0 rest =>
      cases c0 with
      | mk k0 t0 p0 m0 v0 a0 cs0 =>
        simp only [preVisit]
        split
        · split <;> rfl
        · rfl

theorem preVisit_valueOf (n : Node) : (preVisit n).valueOf = n.valueOf := by
  cases n with
  | mk k t p m v a cs =>
    cases cs with
    | nil =>
      simp only [preVisit]
      split <;> rfl
    | cons c0 rest =>
      cases c0 with
      | mk k0 t0 p0 m0 v0 a0 cs0 =>
        simp only [preVisit]
        split
        · split <;> rfl
        · rfl

theorem prePass_valueOf (n : Node) : (prePass n).valueOf = n.valueOf := by
  cases n with
  | mk k t p m v a cs =>
    rw [prePass, preVisit_valueOf]
    rfl

theorem prePass_code_child (c0 : Node) (hc : c0.tagOf = "code") :
    prePass c0 = .mk c0.kindOf "code" c0.propsOf c0.metaOf c0.valueOf c0.annOf
      (prePassList c0.childrenOf) := by
  cases c0 with
  | mk k0 t0 p0 m0 v0 a0 cs0 =>
    have ht0 : t0 = "code" := hc
    subst ht0
    rw [prePass]
    simp only [preVisit, Node.kindOf, Node.tagOf, Node.propsOf, Node.metaOf,
      Node.valueOf, Node.annOf, Node.childrenOf]
    have hguard : (k0 == "element" && ("code" == "pre")) = false := by
      simp
    rw [hguard]
    simp

theorem prePass_pre_ann (p : Props) (m v : Option String) (a : Ann)
    (c0 : Node) (rest : List Node) (hc : c0.tagOf = "code") :
    (prePass (.mk "element" "pre" p m v a (c0 :: rest))).annOf =
      { rawString := (c0.childrenOf.head?).bind Node.valueOf
        event := match (if jsTruthyStr c0.metaOf then jsMatchEvent (c0.metaOf.getD "") else none) with
          | some q => some q.1
          | none => a.event
        src := p.src
        style := p.style } := by
  rw [prePass]
  have hlist : prePassList (c0 :: rest) = prePass c0 :: prePassList rest := rfl
  rw [hlist, prePass_code_child c0 hc]
  simp only [preVisit, Node.annOf]
  have hraw : ((prePassList c0.childrenOf).head?).bind Node.valueOf =
      (c0.childrenOf.head?).bind Node.valueOf := by
    cases hcs : c0.childrenOf with
    | nil => rfl
    | cons e es =>
      have he : prePassList (e :: es) = prePass e :: prePassList es := rfl
      rw [he]
      simp [prePass_valueOf]
  simp [hraw]

theorem postVisit_tagOf (n : Node) : (postVisit n).tagOf = n.tagOf := by
  cases n with
  | mk k t p m v a cs =>
    simp only [postVisit]
    split
    · split
      · rfl
      · split <;> rfl
    · rfl

theorem postVisit_propsOf (n : Node) : (postVisit n).propsOf = n.propsOf := by
  cases n with
  | mk k t p m v a cs =>
    simp only [postVisit]
    split
    · split
      · rfl
      · split <;> rfl
    · rfl

theorem postPass_tagOf (n : Node) : (postPass n).tagOf = n.tagOf := by
  cases n with
  | mk k t p m v a cs =>
    rw [postPass, postVisit_tagOf]
    rfl

theorem postPass_propsOf (n : Node) : (postPass n).propsOf = n.propsOf := by
  cases n with
  | mk k t p m v a cs =>
    rw [postPass, postVisit_propsOf]
    rfl

theorem postPassList_eq_map (cs : List Node) :
    postPassList cs = cs.map postPass := by
  induction cs with
  | nil => rfl
  | cons c cs ih =>
    rw [postPassList, ih]
    rfl

theorem node_propsOf_setProps (n : Node) (q : Props) :
    (n.setProps q).propsOf = q := by
  cases n
  rfl

theorem postPass_fragment_last_props (dp : Props) (dm dv : Option String)
    (da : Ann) (dcs : List Node) (l : Node)
    (hfrag : dp.fragment = true)
    (hl : dcs.getLast? = some l) (hlt : l.tagOf = "pre") :
    ((postPass (.mk "element" "div" dp dm dv da dcs)).childrenOf.getLast?).map
        Node.propsOf =
      some (setPost l.propsOf
        (((dcs.head?).map Node.tagOf).getD "" == "div") da) := by
  rw [postPass]
  simp only [postVisit, hfrag]
  rw [postPassList_eq_map]
  have hlast : (dcs.map postPass).getLast? = some (postPass l) := by
    rw [List.getLast?_map, hl]
    rfl
  rw [hlast]
  simp only [postPass_tagOf, hlt]
  have hhead : ((dcs.map postPass).head?).map Node.tagOf =
      (dcs.head?).map Node.tagOf := by
    cases dcs with
    | nil => rfl
    | cons e es => simp [postPass_tagOf]
  show Option.map Node.propsOf
      ((List.map postPass dcs).dropLast ++
        [(postPass l).setProps
            (setPost (postPass l).propsOf
              ((Option.map Node.tagOf (List.map postPass dcs).head?).getD "" == "div") da)]).getLast? =
    some (setPost l.propsOf ((Option.map Node.tagOf dcs.head?).getD "" == "div") da)
  rw [List.getLast?_concat]
  rw [Option.map]
  rw [node_propsOf_setProps, postPass_propsOf, hhead]

/-- C1: client-side schema validation rejects every input whose Korean
name is the empty string. -/
theorem C1_empty_korean_name_rejected (i : FormInput)
    (h : i.name_kr = some "") : formSchemaPasses i = false := by
  simp [formSchemaPasses, zStringMin1, h]

/-- Witness for C1 at a concrete input. -/
theorem C1_empty_korean_name_rejected_witness :
    formSchemaPasses { fullBody with name_kr := some "" } = false :=
  C1_empty_korean_name_rejected { fullBody with name_kr := some "" } rfl

/-- C2: client-side schema validation rejects every input whose note is a
single token containing no comma. -/
theorem C2_commaless_note_rejected (i : FormInput) (s : String)
    (hn : i.note = some s) (h : ',' ∉ s.data) :
    formSchemaPasses i = false := by
  have hc : jsSplitCommaCount s = 1 :=
    splitOn_comma_length_of_not_mem s.data h
  simp [formSchemaPasses, noteCheck, hn, hc]

/-- Witness for C2 at a concrete input. -/
theorem C2_commaless_note_rejected_witness :
    formSchemaPasses { fullBody with note := some "Bright" } = false :=
  C2_commaless_note_rejected { fullBody with note := some "Bright" }
    "Bright" rfl (by decide)

/-- C3: for a valid body, the action redirects to the path containing the
identifier extracted from the database response, and to "/coffee/0"
whenever no identifier is returned (ID property absent, no properties
key, or a null response). -/
theorem C3_redirect_uses_extracted_id (body : FormInput) (resp : DbResponse)
    (n : Int) (h : CoffeeInfoDTOPasses body = true) :
    (resp.hasProperties = true → resp.idNumber = some n →
      action body (.ok (some resp)) =
        (.redirect ("/coffee/" ++ toString n), true)) ∧
    (resp.hasProperties = true → resp.idNumber = none →
      action body (.ok (some resp)) = (.redirect "/coffee/0", true)) ∧
    (resp.hasProperties = false →
      action body (.ok (some resp)) = (.redirect "/coffee/0", true)) ∧
    action body (.ok none) = (.redirect "/coffee/0", true) := by
  refine ⟨?_, ?_, ?_, ?_⟩
  · intro hp hid
    have hz : jsOrZero (extractNumber (some resp)) = n := by
      simp [extractNumber, hp, hid, jsOrZero]
      intro h0
      exact h0.symm
    simp [action, h, hz]
  · intro hp hid
    have hz : jsOrZero (extractNumber (some resp)) = 0 := by
      simp [extractNumber, hp, hid, jsOrZero]
    have hs : ("/coffee/" ++ toString (0 : Int)) = "/coffee/0" := by decide
    simp [action, h, hz, hs]
  · intro hp
    have hz : jsOrZero (extractNumber (some resp)) = 0 := by
      simp [extractNumber, hp, jsOrZero]
    have hs : ("/coffee/" ++ toString (0 : Int)) = "/coffee/0" := by decide
    simp [action, h, hz, hs]
  · have hz : jsOrZero (extractNumber none) = 0 := by
      simp [extractNumber, jsOrZero]
    have hs : ("/coffee/" ++ toString (0 : Int)) = "/coffee/0" := by decide
    simp [action, h, hz, hs]

/-- Witness for C3 at a concrete body and response. -/
theorem C3_redirect_uses_extracted_id_witness :
    action fullBody (.ok (some ⟨true, some 5⟩)) =
      (.redirect ("/coffee/" ++ toString (5 : Int)), true) :=
  (C3_redirect_uses_extracted_id fullBody ⟨true, some 5⟩ 5 (by decide)).1 rfl rfl

/-- C5: when the body fails `CoffeeInfoDTO.parse`, the action throws, no
redirect is produced, and `createCoffeeInfo` is never invoked, whatever
the database would have done. -/
theorem C5_parse_failure_throws_without_db_call (body : FormInput)
    (db : DbOutcome) (h : CoffeeInfoDTOPasses body = false) :
    action body db = (.parseError, false) := by
  simp [action, h]

/-- Witness for C5 at a concrete body missing a field. -/
theorem C5_parse_failure_throws_without_db_call_witness :
    action optionalAbsentInput (.ok none) = (.parseError, false) :=
  C5_parse_failure_throws_without_db_call optionalAbsentInput (.ok none)
    (by decide)

/-- C6: when the database create call rejects, the action propagates the
failure unchanged and returns no redirect. -/
theorem C6_db_failure_propagates (body : FormInput) (e : String)
    (h : CoffeeInfoDTOPasses body = true) :
    action body (.failure e) = (.dbFailure e, true) := by
  simp [action, h]

/-- Witness for C6 at a concrete body and error. -/
theorem C6_db_failure_propagates_witness :
    action fullBody (.failure "ECONNRESET") =
      (.dbFailure "ECONNRESET", true) :=
  C6_db_failure_propagates fullBody "ECONNRESET" (by decide)

/-- C9: the server-side DTO requires all eight fields, so a body in which
any of the five client-side optional fields is absent makes the parse
throw and no record is persisted; meanwhile the client schema accepts an
input with all five of those fields absent. -/
theorem C9_optional_fields_required_server_side (body : FormInput)
    (db : DbOutcome)
    (h : body.region = none ∨ body.farm = none ∨ body.variety = none ∨
         body.process = none ∨ body.source = none) :
    action body db = (.parseError, false) ∧
    formSchemaPasses clientOnlyInput = true := by
  refine ⟨?_, by decide⟩
  have hdto : CoffeeInfoDTOPasses body = false := by
    rcases h with h1 | h1 | h1 | h1 | h1 <;>
      simp [CoffeeInfoDTOPasses, zString, h1]
  simp [action, hdto]

/-- Witness for C9 at a concrete body with an absent optional field. -/
theorem C9_optional_fields_required_server_side_witness :
    action { fullBody with region := none } (.ok none) =
        (.parseError, false) ∧
    formSchemaPasses clientOnlyInput = true :=
  C9_optional_fields_required_server_side { fullBody with region := none }
    (.ok none) (Or.inl rfl)

/-- C10: the note refinement accepts every string containing at least one
comma; in particular the lone comma, all of whose comma-split tokens are
empty, passes. -/
theorem C10_any_comma_string_accepted (s : String) (h : ',' ∈ s.data) :
    noteCheck (some s) = true ∧ noteCheck (some ",") = true := by
  have hlen : 1 ≤ s.length := by
    have hne : s.data ≠ [] := by
      intro he
      rw [he] at h
      simp at h
    have hp : 0 < s.data.length := List.length_pos.mpr hne
    rw [string_length_eq_data_length]
    omega
  have hc : 1 < jsSplitCommaCount s :=
    one_lt_splitOn_comma_length_of_mem s.data h
  refine ⟨?_, by decide⟩
  simp [noteCheck, hlen, hc]

/-- Witness for C10 at the lone comma. -/
theorem C10_any_comma_string_accepted_witness :
    noteCheck (some ",") = true ∧ noteCheck (some ",") = true :=
  C10_any_comma_string_accepted "," (by decide)

/-- C4 as stated is false: the claim quantifies over all values including
absence of name_en, but `z.string()` rejects an absent name_en, so an
input with non-empty Korean name and a two-token note still fails when
name_en is absent. -/
theorem C4_counterexample :
    optionalAbsentInput.name_kr = some "가" ∧ ("가" : String) ≠ "" ∧
    optionalAbsentInput.note = some "a,b" ∧ 1 < jsSplitCommaCount "a,b" ∧
    optionalAbsentInput.name_en = none ∧
    formSchemaPasses optionalAbsentInput = false := by
  refine ⟨rfl, by decide, rfl, by decide, rfl, by decide⟩

/-- C4 amended: an input with non-empty Korean name, a note splitting on
commas into more than one token, and a present (possibly empty) name_en
passes client-side validation for all values, absence included, of the
five optional fields region, farm, variety, process and source. -/
theorem C4_amended_invariants (i : FormInput) (s t u : String)
    (hkr : i.name_kr = some s) (hs : s ≠ "")
    (hen : i.name_en = some t)
    (hn : i.note = some u) (hu : 1 < jsSplitCommaCount u) :
    formSchemaPasses i = true := by
  have hslen : 1 ≤ s.length := by
    have hne : s.data ≠ [] := fun he => hs (string_eq_empty_of_data_nil s he)
    have hp : 0 < s.data.length := List.length_pos.mpr hne
    rw [string_length_eq_data_length]
    omega
  have hulen : 1 ≤ u.length := by
    by_contra hlt
    have h0 : u.data = [] := by
      have h1 : u.data.length = 0 := by
        rw [string_length_eq_data_length] at hlt
        omega
      exact List.length_eq_zero.mp h1
    have hone : jsSplitCommaCount u = 1 := by
      simp [jsSplitCommaCount, h0, List.splitOn, List.splitOnP_nil]
    omega
  simp [formSchemaPasses, zStringMin1, zString, noteCheck, zStringOptional,
    hkr, hen, hn, hslen, hulen, hu]

/-- Witness for the amended C4 at a concrete input with the optional
fields absent. -/
theorem C4_amended_invariants_witness :
    formSchemaPasses clientOnlyInput = true :=
  C4_amended_invariants clientOnlyInput "가" "" "a,b" rfl (by decide) rfl rfl
    (by decide)

/-- C8: the two patterns are disjoint, so every content file path maps to
at most one of the two content types: paths under docs/components go to
Doc, paths under docs/projects go to Project, and no path matches both. -/
theorem C8_directory_convention_disjoint (segs : List String) :
    ((matchesDocPattern segs && matchesProjectPattern segs) = false) ∧
    (matchesDocPattern segs = true → docTypeOf segs = some .doc) ∧
    (matchesProjectPattern segs = true → docTypeOf segs = some .project) := by
  have hdisj : (matchesDocPattern segs && matchesProjectPattern segs) = false := by
    match segs with
    | [] => rfl
    | [_] => rfl
    | a :: b :: rest =>
      simp only [matchesDocPattern, matchesProjectPattern]
      by_cases hb : b = "components"
      · subst hb
        simp
      · simp [hb]
  refine ⟨hdisj, ?_, ?_⟩
  · intro hd
    simp [docTypeOf, hd]
  · intro hp
    have hd : matchesDocPattern segs = false := by
      rcases hq : matchesDocPattern segs with _ | _
      · rfl
      · rw [hq, hp] at hdisj
        simp at hdisj
    simp [docTypeOf, hd, hp]

/-- Witness for C8 at concrete paths. -/
theorem C8_directory_convention_disjoint_witness :
    docTypeOf ["docs", "components", "button.mdx"] = some .doc ∧
    docTypeOf ["docs", "projects", "raon", "index.mdx"] = some .project :=
  ⟨(C8_directory_convention_disjoint ["docs", "components", "button.mdx"]).2.1
      (by decide),
   (C8_directory_convention_disjoint
      ["docs", "projects", "raon", "index.mdx"]).2.2 (by decide)⟩

/-- C7 amended: for every pre element whose first child is a code element,
the pass before highlighting records the raw string of the code, the src
and style properties, and any event attribute extracted from the code
meta as annotations on the pre node; and for every fragment div whose
last child is a pre element, the pass after highlighting rewrites the
properties of that pre so that withMeta and rawString are set
unconditionally from the div, while src, event and style are copied from
the recorded annotations exactly when the recorded value is truthy
(present and non-empty) and keep their old value otherwise. -/
theorem C7_annotation_flow (p : Props) (m v : Option String) (a : Ann)
    (c0 : Node) (rest : List Node)
    (dp : Props) (dm dv : Option String) (da : Ann) (dcs : List Node)
    (l : Node) (wb : Bool)
    (hc : c0.tagOf = "code") (hfrag : dp.fragment = true)
    (hl : dcs.getLast? = some l) (hlt : l.tagOf = "pre") :
    ((prePass (.mk "element" "pre" p m v a (c0 :: rest))).annOf =
      { rawString := (c0.childrenOf.head?).bind Node.valueOf
        event := match (if jsTruthyStr c0.metaOf then jsMatchEvent (c0.metaOf.getD "") else none) with
          | some q => some q.1
          | none => a.event
        src := p.src
        style := p.style }) ∧
    (((postPass (.mk "element" "div" dp dm dv da dcs)).childrenOf.getLast?).map
        Node.propsOf =
      some (setPost l.propsOf
        (((dcs.head?).map Node.tagOf).getD "" == "div") da)) ∧
    (setPost l.propsOf wb da).withMeta = some wb ∧
    (setPost l.propsOf wb da).rawString = da.rawString ∧
    (setPost l.propsOf wb da).src =
      (if jsTruthyStr da.src then da.src else l.propsOf.src) ∧
    (setPost l.propsOf wb da).event =
      (if jsTruthyStr da.event then da.event else l.propsOf.event) ∧
    (setPost l.propsOf wb da).style =
      (if jsTruthyStr da.style then da.style else l.propsOf.style) := by
  refine ⟨prePass_pre_ann p m v a c0 rest hc,
    postPass_fragment_last_props dp dm dv da dcs l hfrag hl hlt,
    rfl, rfl, rfl, rfl, rfl⟩

/-- Witness for the amended C7 at concrete nodes: the event attribute
copy is extracted and recorded, the raw string comes from the text child
of the code element, and the fragment div rewrite sets withMeta and
copies the truthy annotations while keeping the old src of the pre when
the recorded one is absent. -/
theorem C7_annotation_flow_witness :
    ((prePass (.mk "element" "pre" wProps none none {} [wCode])).annOf =
      { rawString := some "let y = 2", event := some "copy",
        src := some "s1", style := some "st" }) ∧
    (((postPass (.mk "element" "div" { fragment := true } none none wAnn
          [wInner, wPreEl])).childrenOf.getLast?).map Node.propsOf =
      some (setPost wPreEl.propsOf true wAnn)) ∧
    (setPost wPreEl.propsOf true wAnn).withMeta = some true ∧
    (setPost wPreEl.propsOf true wAnn).rawString = some "let y = 2" ∧
    (setPost wPreEl.propsOf true wAnn).src =
      (if jsTruthyStr wAnn.src then wAnn.src else wPreEl.propsOf.src) ∧
    (setPost wPreEl.propsOf true wAnn).event =
      (if jsTruthyStr wAnn.event then wAnn.event else wPreEl.propsOf.event) ∧
    (setPost wPreEl.propsOf true wAnn).style =
      (if jsTruthyStr wAnn.style then wAnn.style else wPreEl.propsOf.style) :=
  C7_annotation_flow wProps none none {} wCode [] { fragment := true }
    none none wAnn [wInner, wPreEl] wPreEl true rfl rfl rfl rfl

/-- C7 as stated is false: an empty event attribute is extracted and
recorded by the first pass, but the second pass does not copy the
recorded empty-string event annotation onto the final pre element
(JavaScript truthiness drops it), while the recorded raw string is
copied. -/
theorem C7_counterexample :
    (prePass eventEmptyCodePre).annOf.event = some "" ∧
    eventEmptyFragmentDiv.annOf.event = some "" ∧
    ((postPass eventEmptyFragmentDiv).childrenOf.getLast?).map
        (fun nd => nd.propsOf.event) = some none ∧
    ((postPass eventEmptyFragmentDiv).childrenOf.getLast?).map
        (fun nd => nd.propsOf.rawString) = some (some "const x = 1") :=
  ⟨rfl, rfl, rfl, rfl⟩
